import Mathlib

/-!
Shallow embedding of the polka-sync repository's synchronization core
(`sync.js`): the scheduler loop body of `SyncByUpdate`, the height reader
`blockHeights`, the range-sync engine `log`, and the checkpoint writer
`saveConf`.  External collaborators (the web3 RPC client, the `logSync`
persistence collaborator, and the `conf.json` file system write) are
modelled as an explicit `World` of oracles, and every observable action
(event fetch, logSync call, checkpoint write, sleep, client
reinitialization, chain-height query) is recorded in an event trace.

Machine numbers: the heights and the `offset` in `conf.json` are integer
JavaScript numbers in every reachable configuration; they are modelled as
`ℤ`, and the one float division in the source
(`(latestBlockNum - syncedBlockHeight) / offset`) is modelled as exact
division in `ℚ` (exact for the integer ranges involved).  The JS loop
`for (let i = 0; i < iterationCount; i++)` with a rational bound executes
once for every natural `i` below the bound, i.e. `⌈iterationCount⌉` times;
the lemma `lt_iterationCount_iff` records this correspondence.  The case
`offset = 0` (a division by zero giving `Infinity` in JS, hence a
non-terminating loop) is outside the modelled behaviours; all claims
assume `offset > 0`.
-/

namespace PolkaSync

/-- Values the `syncedBlockHeight` field of `conf.json` can hold as seen by
JavaScript: an (integer) number, a boolean, `null`, or `undefined` (a
missing key).  Numeric JSON values are modelled as integers. -/
inductive JsonVal where
  | num (n : ℤ)
  | bool (b : Bool)
  | null
  | undef
  deriving Repr, DecidableEq

/-- JavaScript numeric coercion `Number(v)` on the modelled values; `none`
models `NaN`.  `Number(null) = 0`, `Number(true) = 1`, `Number(false) = 0`,
`Number(undefined) = NaN`. -/
def jsToNumber : JsonVal → Option ℤ
  | JsonVal.num n => some n
  | JsonVal.bool b => some (if b then 1 else 0)
  | JsonVal.null => some 0
  | JsonVal.undef => none

/-- The JavaScript `isNaN(v)` predicate: numeric coercion yields `NaN`. -/
def jsIsNaN (v : JsonVal) : Bool := (jsToNumber v).isNone

/-- Whether a JSON value is of number type (used to state C10, which speaks
of the field "not being a number"). -/
def JsonVal.isNumber : JsonVal → Bool
  | JsonVal.num _ => true
  | _ => false

/-- The `conf.json` checkpoint document: `{syncedBlockHeight, sleepInterval,
offset}`.  `syncedBlockHeight` is kept as a raw JSON value because
`blockHeights` inspects it with `isNaN` before any numeric use. -/
structure Conf where
  syncedBlockHeight : JsonVal
  offset : ℤ
  sleepInterval : ℤ
  deriving Repr, DecidableEq

/-- One monitored contract: the name passed to `logSync` and the
per-contract duration environment parameter. -/
structure ContractTarget where
  name : String
  duration : ℤ
  deriving Repr, DecidableEq

/-- The external collaborators of the core loop, as oracles.
`getBlockNumber = none` models `web3.eth.getBlockNumber()` throwing;
`getPastEvents name from to = none` models the contract's
`getPastEvents('allEvents', {fromBlock, toBlock})` throwing; events are
abstract records modelled as naturals.  `logSyncOk` tells whether the
`logSync` call succeeds, `saveOk` whether `fs.writeFileSync` of
`conf.json` succeeds.  The three `*Duration` fields are the environment
variables `PRIVATE_SALE_DURATION`, `CHAIN_GUARDIAN_DURATION`,
`TRUST_PAD_DURATION`. -/
structure World where
  getBlockNumber : Option ℤ
  getPastEvents : String → ℤ → ℤ → Option (List ℕ)
  logSyncOk : String → List ℕ → Bool
  saveOk : Bool
  privateSaleDuration : ℤ
  chainGuardianDuration : ℤ
  trustPadDuration : ℤ

/-- The duration parameter the script passes to `logSync` for each
contract name (from the environment). -/
def durationOf (w : World) (name : String) : ℤ :=
  if name = "private-sale" then w.privateSaleDuration
  else if name = "chain-guardian" then w.chainGuardianDuration
  else w.trustPadDuration

/-- Observable actions of the core loop, in program order. -/
inductive Ev where
  | fetchEv (name : String) (fromBlock toBlock : ℤ)
  | logSyncEv (name : String) (events : List ℕ) (duration : ℤ)
  | persistEv (conf : Conf)
  | sleepEv (seconds : ℤ)
  | reInitEv
  | oracleQueryEv
  deriving Repr, DecidableEq

/-- State of one run of the `log` function: the mutable `from`/`to` range
variables, the in-memory `conf` object, the current `conf.json` file
contents, and the trace of actions so far. -/
structure LogState where
  fromBlock : ℤ
  toBlock : ℤ
  conf : Conf
  file : Conf
  trace : List Ev
  deriving Repr, DecidableEq

/-- The ranges passed to `getPastEvents`, in call order. -/
def fetchRanges (tr : List Ev) : List (ℤ × ℤ) :=
  tr.filterMap fun e =>
    match e with
    | Ev.fetchEv _ a b => some (a, b)
    | _ => none

/-- The `logSync` invocations `(contractName, events, durationParam)`, in
call order. -/
def logSyncCalls (tr : List Ev) : List (String × List ℕ × ℤ) :=
  tr.filterMap fun e =>
    match e with
    | Ev.logSyncEv n evs d => some (n, evs, d)
    | _ => none

/-- The checkpoint documents written by `saveConf`, in write order. -/
def persistedConfs (tr : List Ev) : List Conf :=
  tr.filterMap fun e =>
    match e with
    | Ev.persistEv cf => some cf
    | _ => none

/-- The `logSync` invocations a trace ought to contain according to the
fetches it records: one call per recorded fetch whose event batch was
non-empty, carrying that batch and the contract's duration parameter. -/
def expectedLogSyncs (w : World) (tr : List Ev) : List (String × List ℕ × ℤ) :=
  tr.filterMap fun e =>
    match e with
    | Ev.fetchEv name a b =>
        match w.getPastEvents name a b with
        | some evs => if evs.length > 0 then some (name, evs, durationOf w name) else none
        | none => none
    | _ => none

deriving instance DecidableEq for Except

/-- The state at the end of a `log` run, whether it returned normally or
exited the process. -/
def resultState : Except (ℕ × LogState) LogState → LogState
  | Except.ok st => st
  | Except.error (_, st) => st

/-- The exit code of a `log` run, `none` if it returned normally. -/
def resultExitCode : Except (ℕ × LogState) LogState → Option ℕ
  | Except.ok _ => none
  | Except.error (c, _) => some c

/-- Function `saveConf` (sync.js lines 234-241): writes `conf` to `conf.json`;
returns the new file contents, or `none` when `fs.writeFileSync` throws,
in which case the source logs the error and calls `process.exit()` — which
terminates with the default exit code 0. -/
def saveConf (w : World) (conf : Conf) : Option Conf :=
  if w.saveOk then some conf else none

/-- One per-contract block of the `log` loop body (sync.js lines 137-160
and its two copies): fetch the contract's events over the current range;
on a fetch error sleep `conf.sleepInterval` and `process.exit(0)`; on a
non-empty batch call `logSync`, and on a `logSync` error `process.exit()`
(default exit code 0).  The error value carries the exit code and the
state at exit. -/
def runContract (w : World) (c : ContractTarget) (st : LogState) :
    Except (ℕ × LogState) LogState :=
  match w.getPastEvents c.name st.fromBlock st.toBlock with
  | none =>
      Except.error (0, { st with trace :=
        st.trace ++ [Ev.fetchEv c.name st.fromBlock st.toBlock,
                     Ev.sleepEv st.conf.sleepInterval] })
  | some evs =>
      if evs.length > 0 then
        if w.logSyncOk c.name evs then
          Except.ok { st with trace :=
            st.trace ++ [Ev.fetchEv c.name st.fromBlock st.toBlock,
                         Ev.logSyncEv c.name evs c.duration] }
        else
          Except.error (0, { st with trace :=
            st.trace ++ [Ev.fetchEv c.name st.fromBlock st.toBlock,
                         Ev.logSyncEv c.name evs c.duration] })
      else
        Except.ok { st with trace :=
          st.trace ++ [Ev.fetchEv c.name st.fromBlock st.toBlock] }

/-- One iteration of the `log` loop (sync.js lines 132-223): the three
contracts in their fixed order, with the one-second `timeOut(1)` pauses
after the first and second contract, then the range update
`from += offset; to = (from + offset > latestBlockNum) ? latestBlockNum
: from + offset`, the in-memory checkpoint update
`conf['syncedBlockHeight'] = to`, and `saveConf`. -/
def logIteration (w : World) (latestBlockNum offset : ℤ) (st : LogState) :
    Except (ℕ × LogState) LogState :=
  match runContract w ⟨"private-sale", w.privateSaleDuration⟩ st with
  | Except.error e => Except.error e
  | Except.ok st1 =>
    let st1 : LogState := { st1 with trace := st1.trace ++ [Ev.sleepEv 1] }
    match runContract w ⟨"chain-guardian", w.chainGuardianDuration⟩ st1 with
    | Except.error e => Except.error e
    | Except.ok st2 =>
      let st2 : LogState := { st2 with trace := st2.trace ++ [Ev.sleepEv 1] }
      match runContract w ⟨"trust-pad", w.trustPadDuration⟩ st2 with
      | Except.error e => Except.error e
      | Except.ok st3 =>
        let fromBlock := st3.fromBlock + offset
        let toBlock :=
          if fromBlock + offset > latestBlockNum then latestBlockNum
          else fromBlock + offset
        let st4 : LogState :=
          { st3 with fromBlock := fromBlock, toBlock := toBlock,
                     conf := { st3.conf with syncedBlockHeight := JsonVal.num toBlock } }
        match saveConf w st4.conf with
        | some file1 =>
            Except.ok { st4 with file := file1,
                                 trace := st4.trace ++ [Ev.persistEv st4.conf] }
        | none => Except.error (0, st4)

/-- The `for` loop of `log`, with the iteration count made explicit. -/
def logLoop (w : World) (latestBlockNum offset : ℤ) :
    ℕ → LogState → Except (ℕ × LogState) LogState
  | 0, st => Except.ok st
  | n + 1, st =>
      match logIteration w latestBlockNum offset st with
      | Except.ok st1 => logLoop w latestBlockNum offset n st1
      | Except.error e => Except.error e

/-- The `iterationCount` of `log` (sync.js line 123):
`Math.max(0, (latestBlockNum - syncedBlockHeight) / offset)`, with the
float division modelled exactly in `ℚ`. -/
def iterationCount (latestBlockNum syncedBlockHeight offset : ℤ) : ℚ :=
  max 0 (((latestBlockNum : ℚ) - (syncedBlockHeight : ℚ)) / (offset : ℚ))

/-- The number of times the body of `for (let i = 0; i < iterationCount;
i++)` runs: the number of naturals below `iterationCount`, i.e.
`⌈iterationCount⌉` clamped at zero.  Written with integer ceiling division
so that runs evaluate inside the kernel; the theorem
`loopIterations_eq_ceil` proves it equal to `⌈iterationCount⌉.toNat` on
all inputs, so it is the same model as the rational `iterationCount`. -/
def loopIterations (latestBlockNum syncedBlockHeight offset : ℤ) : ℕ :=
  if offset = 0 then 0
  else if 0 < offset then
    (max 0 ((latestBlockNum - syncedBlockHeight + offset - 1) / offset)).toNat
  else
    (max 0 ((syncedBlockHeight - latestBlockNum + -offset - 1) / -offset)).toNat

/-- Function `log` (sync.js lines 116-224): the Range Sync Engine.  `conf` is the
in-memory configuration object, `file` the current `conf.json` contents
(equal to `conf` when called from `SyncByUpdate`). -/
def log (w : World) (conf : Conf) (file : Conf)
    (latestBlockNum syncedBlockHeight : ℤ) : Except (ℕ × LogState) LogState :=
  let offset := conf.offset
  let fromBlock := syncedBlockHeight
  let toBlock :=
    if latestBlockNum - syncedBlockHeight > offset then offset + syncedBlockHeight
    else latestBlockNum
  logLoop w latestBlockNum offset
    (loopIterations latestBlockNum syncedBlockHeight offset)
    { fromBlock := fromBlock, toBlock := toBlock, conf := conf, file := file,
      trace := [] }

/-- Function `blockHeights` (sync.js lines 90-108): throws
`'syncedBlockHeight must be integer'` when `isNaN(conf['syncedBlockHeight'])`;
otherwise queries `web3.eth.getBlockNumber()`, returning the raw field
together with `none` (JS `undefined`) when the query throws.  The returned
trace records the chain query when it happens. -/
def blockHeights (w : World) (conf : Conf) :
    Except String ((Option ℤ × JsonVal) × List Ev) :=
  if jsIsNaN conf.syncedBlockHeight then
    Except.error "syncedBlockHeight must be integer"
  else
    match w.getBlockNumber with
    | none => Except.ok ((none, conf.syncedBlockHeight), [Ev.oracleQueryEv])
    | some latestBlockNum =>
        Except.ok ((some latestBlockNum, conf.syncedBlockHeight), [Ev.oracleQueryEv])

/-- Outcome of one body execution of the `while (true)` loop of
`SyncByUpdate`: continue with the new in-memory conf and file contents,
terminate via `process.exit` with the given code and final file contents,
or propagate the `blockHeights` exception. -/
inductive CycleOutcome where
  | nextCycle (conf : Conf) (file : Conf)
  | exited (code : ℕ) (file : Conf)
  | threw (msg : String)
  deriving Repr, DecidableEq

/-- The exit code of a cycle outcome, when the cycle terminated the
process. -/
def cycleExit : CycleOutcome → Option ℕ
  | CycleOutcome.exited c _ => some c
  | _ => none

/-- One body execution of the `while (true)` loop of `SyncByUpdate`
(sync.js lines 54-82): read heights; on an unknown chain height
(`isNaN(parseInt(latestBlockNum))`) reinitialize web3, sleep, and loop; if
`syncedBlockHeight > latestBlockNum` clamp the checkpoint to the chain
height and save it (a save failure calls `process.exit()`, code 0); if
`syncedBlockHeight < latestBlockNum` run `log`; finally log "synced" and
sleep `conf.sleepInterval`. -/
def syncCycle (w : World) (conf : Conf) (file : Conf) : CycleOutcome × List Ev :=
  match blockHeights w conf with
  | Except.error msg => (CycleOutcome.threw msg, [])
  | Except.ok ((latestOpt, syncedVal), tr0) =>
    match latestOpt with
    | none =>
        (CycleOutcome.nextCycle conf file,
         tr0 ++ [Ev.reInitEv, Ev.sleepEv conf.sleepInterval])
    | some latestBlockNum =>
      let syncedBlockHeight := (jsToNumber syncedVal).getD 0
      if syncedBlockHeight > latestBlockNum then
        let conf1 : Conf := { conf with syncedBlockHeight := JsonVal.num latestBlockNum }
        match saveConf w conf1 with
        | none => (CycleOutcome.exited 0 file, tr0)
        | some file1 =>
            (CycleOutcome.nextCycle conf1 file1,
             tr0 ++ [Ev.persistEv conf1, Ev.sleepEv conf1.sleepInterval])
      else if syncedBlockHeight < latestBlockNum then
        match log w conf file latestBlockNum syncedBlockHeight with
        | Except.ok st =>
            (CycleOutcome.nextCycle st.conf st.file,
             tr0 ++ st.trace ++ [Ev.sleepEv st.conf.sleepInterval])
        | Except.error (code, st) => (CycleOutcome.exited code st.file, tr0 ++ st.trace)
      else
        (CycleOutcome.nextCycle conf file, tr0 ++ [Ev.sleepEv conf.sleepInterval])

/-- Runs `n` consecutive body executions of the `while (true)` loop of
`SyncByUpdate`, with a per-cycle world (the chain may change between
cycles).  `nextCycle` after `n` cycles means the loop is still running. -/
def syncCycles (ws : ℕ → World) : ℕ → Conf → Conf → CycleOutcome × List Ev
  | 0, conf, file => (CycleOutcome.nextCycle conf file, [])
  | n + 1, conf, file =>
      match syncCycle (ws 0) conf file with
      | (CycleOutcome.nextCycle conf1 file1, tr) =>
          let r := syncCycles (fun i => ws (i + 1)) n conf1 file1
          (r.1, tr ++ r.2)
      | other => other

/-- Function `SyncByUpdate` after a successful `loadConf` (so the file contents
equal the loaded conf), bounded to `n` cycles. -/
def SyncByUpdate (ws : ℕ → World) (n : ℕ) (conf : Conf) : CycleOutcome × List Ev :=
  syncCycles ws n conf conf

/-- The closed form of the sub-range the `log` loop fetches in its `i`-th
iteration (used to state the coverage claims). -/
def subRange (syncedBlockHeight offset latestBlockNum : ℤ) (i : ℕ) : ℤ × ℤ :=
  (syncedBlockHeight + (i : ℤ) * offset,
   min (syncedBlockHeight + ((i : ℤ) + 1) * offset) latestBlockNum)

/-- Each range repeated three times in place: the shape of the fetch-range
trace of one loop iteration (one fetch per contract). -/
def tripled : List (ℤ × ℤ) → List (ℤ × ℤ)
  | [] => []
  | p :: ps => p :: p :: p :: tripled ps

/-- A trace repeated `n` times (used for runs of identical cycles). -/
def repeatTrace : ℕ → List Ev → List Ev
  | 0, _ => []
  | n + 1, tr => tr ++ repeatTrace n tr

/-- All ranges of a fetch trace are well-formed (`from ≤ to`). -/
def rangesOk (tr : List Ev) : Prop := ∀ p ∈ fetchRanges tr, p.1 ≤ p.2

/-- Integer ceiling division computes the ceiling of the exact rational
quotient, for a positive divisor. -/
theorem ceil_ratCast_div (a b : ℤ) (hb : 0 < b) :
    Int.ceil ((a : ℚ) / (b : ℚ)) = (a + b - 1) / b := by
  have hb0 : (0 : ℚ) < (b : ℚ) := by exact_mod_cast hb
  have hbne : b ≠ 0 := by omega
  have hr0 : 0 ≤ (a + b - 1) % b := Int.emod_nonneg _ hbne
  have hrb : (a + b - 1) % b < b := Int.emod_lt_of_pos _ hb
  have hdiv : ((a + b - 1) / b) * b + (a + b - 1) % b = a + b - 1 := by
    rw [mul_comm]; exact Int.ediv_add_emod _ _
  have h1 : ((a + b - 1) / b - 1) * b < a := by
    have hexp : ((a + b - 1) / b - 1) * b = ((a + b - 1) / b) * b - b := by ring
    linarith
  have h2 : a ≤ ((a + b - 1) / b) * b := by linarith
  rw [Int.ceil_eq_iff]
  constructor
  · rw [lt_div_iff₀ hb0]
    exact_mod_cast h1
  · rw [div_le_iff₀ hb0]
    exact_mod_cast h2

/-- Taking the ceiling commutes with clamping at zero. -/
theorem ceil_max_zero (q : ℚ) : Int.ceil (max 0 q) = max 0 (Int.ceil q) := by
  rcases le_total q 0 with h | h
  · rw [max_eq_left h, max_eq_left (Int.ceil_le.mpr (by exact_mod_cast h)), Int.ceil_zero]
  · rw [max_eq_right h, max_eq_right (Int.ceil_nonneg h)]

/-- The executable `loopIterations` equals `⌈iterationCount⌉` clamped at
zero, on every input: the integer formulation used by the embedding is
exactly the JS loop count determined by the rational `iterationCount`. -/
theorem loopIterations_eq_ceil (latestBlockNum syncedBlockHeight offset : ℤ) :
    loopIterations latestBlockNum syncedBlockHeight offset =
      (Int.ceil (iterationCount latestBlockNum syncedBlockHeight offset)).toNat := by
  unfold loopIterations iterationCount
  rcases lt_trichotomy offset 0 with h | h | h
  · have hb : (0 : ℤ) < -offset := by omega
    have hq : (((syncedBlockHeight - latestBlockNum : ℤ) : ℚ)) / (((-offset : ℤ)) : ℚ)
        = ((latestBlockNum : ℚ) - (syncedBlockHeight : ℚ)) / (offset : ℚ) := by
      push_cast
      rw [show (syncedBlockHeight : ℚ) - (latestBlockNum : ℚ)
            = -((latestBlockNum : ℚ) - (syncedBlockHeight : ℚ)) by ring]
      exact neg_div_neg_eq _ _
    rw [if_neg (by omega : ¬ offset = 0), if_neg (by omega : ¬ (0 : ℤ) < offset),
        ceil_max_zero, ← hq, ceil_ratCast_div _ _ hb]
  · rw [h]
    simp
  · have hq : (((latestBlockNum - syncedBlockHeight : ℤ) : ℚ)) / ((offset : ℤ) : ℚ)
        = ((latestBlockNum : ℚ) - (syncedBlockHeight : ℚ)) / (offset : ℚ) := by
      push_cast
      rfl
    rw [if_neg (by omega : ¬ offset = 0), if_pos h,
        ceil_max_zero, ← hq, ceil_ratCast_div _ _ h]

/-- A configuration as in the spec scenarios: checkpoint 100, sub-range
size (offset) 100, sleep interval 7 seconds. -/
def confA : Conf :=
  { syncedBlockHeight := JsonVal.num 100, offset := 100, sleepInterval := 7 }

/-- A configuration whose `syncedBlockHeight` is JSON `null` (not a
number, but not `NaN` under JS coercion either). -/
def confNull : Conf :=
  { syncedBlockHeight := JsonVal.null, offset := 100, sleepInterval := 7 }

/-- A configuration whose `syncedBlockHeight` key is missing
(`undefined`), the reachable way for the `isNaN` guard to fire. -/
def confUndef : Conf :=
  { syncedBlockHeight := JsonVal.undef, offset := 100, sleepInterval := 7 }

/-- An environment in which everything succeeds: chain head 250, all
event fetches return empty batches, `logSync` and `saveConf` succeed. -/
def allOkWorld : World :=
  { getBlockNumber := some 250
    getPastEvents := fun _ _ _ => some []
    logSyncOk := fun _ _ => true
    saveOk := true
    privateSaleDuration := 11
    chainGuardianDuration := 12
    trustPadDuration := 13 }

/-- Like `allOkWorld`, but the chain-guardian fetch over the sub-range
starting at 200 throws (Scenario C: contract B fails in sub-range
(200,250) after contract A succeeded). -/
def guardianFailWorld : World :=
  { allOkWorld with getPastEvents := fun name fromBlock _ =>
      if name = "chain-guardian" ∧ fromBlock = 200 then none else some [] }

/-- Like `allOkWorld`, but every event fetch throws. -/
def fetchFailWorld : World :=
  { allOkWorld with getPastEvents := fun _ _ _ => none }

/-- Like `allOkWorld`, but fetches return one event and `logSync` fails. -/
def logSyncFailWorld : World :=
  { allOkWorld with getPastEvents := fun _ _ _ => some [5],
                    logSyncOk := fun _ _ => false }

/-- Like `allOkWorld`, but writing `conf.json` fails. -/
def saveFailWorld : World := { allOkWorld with saveOk := false }

/-- Like `allOkWorld`, but the chain-height query throws. -/
def oracleFailWorld : World := { allOkWorld with getBlockNumber := none }

/-- Like `allOkWorld`, but the chain head is 300 (Scenario B recovery). -/
def oracle300World : World := { allOkWorld with getBlockNumber := some 300 }

/-- Like `allOkWorld`, but the chain head is 50 (below the checkpoint:
the reorg / stale-node clamp case). -/
def oracle50World : World := { allOkWorld with getBlockNumber := some 50 }

/-- Like `allOkWorld`, but the chain head equals the checkpoint. -/
def oracle100World : World := { allOkWorld with getBlockNumber := some 100 }

/-- Scenario B: the oracle throws on the first cycle and reports 300
afterwards. -/
def outageWorlds : ℕ → World :=
  fun i => if i = 0 then oracleFailWorld else oracle300World

theorem fetchRanges_append (a b : List Ev) :
    fetchRanges (a ++ b) = fetchRanges a ++ fetchRanges b :=
  List.filterMap_append a b _

theorem logSyncCalls_append (a b : List Ev) :
    logSyncCalls (a ++ b) = logSyncCalls a ++ logSyncCalls b :=
  List.filterMap_append a b _

theorem expectedLogSyncs_append (w : World) (a b : List Ev) :
    expectedLogSyncs w (a ++ b) = expectedLogSyncs w a ++ expectedLogSyncs w b :=
  List.filterMap_append a b _

/-- JS ternary `(x > L) ? L : x` is the minimum. -/
theorem ternary_min (x L : ℤ) : (if x > L then L else x) = min x L := by
  split <;> omega

/-- What one per-contract block does, for any environment: it extends the
trace by a block `tr` whose fetch is the current range, whose `logSync`
calls are exactly those its fetches demand, and which persists nothing;
it either succeeds or exits with code 0. -/
theorem runContract_spec (w : World) (c : ContractTarget) (st : LogState)
    (hdur : durationOf w c.name = c.duration) :
    ∃ tr : List Ev,
      (runContract w c st = Except.ok { st with trace := st.trace ++ tr } ∨
       runContract w c st = Except.error (0, { st with trace := st.trace ++ tr })) ∧
      fetchRanges tr = [(st.fromBlock, st.toBlock)] ∧
      logSyncCalls tr = expectedLogSyncs w tr ∧
      (∀ cf, Ev.persistEv cf ∉ tr) := by
  unfold runContract
  cases hf : w.getPastEvents c.name st.fromBlock st.toBlock with
  | none =>
      refine ⟨[Ev.fetchEv c.name st.fromBlock st.toBlock,
               Ev.sleepEv st.conf.sleepInterval], Or.inr rfl, ?_, ?_, ?_⟩
      · simp [fetchRanges]
      · simp [logSyncCalls, expectedLogSyncs, hf]
      · simp
  | some evs =>
      by_cases hlen : evs.length > 0
      · by_cases hok : w.logSyncOk c.name evs
        · refine ⟨[Ev.fetchEv c.name st.fromBlock st.toBlock,
                   Ev.logSyncEv c.name evs c.duration],
                  Or.inl (by simp [hlen, hok]), ?_, ?_, ?_⟩
          · simp [fetchRanges]
          · simp [logSyncCalls, expectedLogSyncs, hf, hlen, hdur]
          · simp
        · refine ⟨[Ev.fetchEv c.name st.fromBlock st.toBlock,
                   Ev.logSyncEv c.name evs c.duration],
                  Or.inr (by simp [hlen, hok]), ?_, ?_, ?_⟩
          · simp [fetchRanges]
          · simp [logSyncCalls, expectedLogSyncs, hf, hlen, hdur]
          · simp
      · refine ⟨[Ev.fetchEv c.name st.fromBlock st.toBlock],
                Or.inl (by simp [hlen]), ?_, ?_, ?_⟩
        · simp [fetchRanges]
        · simp [logSyncCalls, expectedLogSyncs, hf, hlen]
        · simp

theorem durationOf_privateSale (w : World) :
    durationOf w "private-sale" = w.privateSaleDuration := by
  unfold durationOf
  rw [if_pos rfl]

theorem durationOf_chainGuardian (w : World) :
    durationOf w "chain-guardian" = w.chainGuardianDuration := by
  unfold durationOf
  rw [if_neg (by decide), if_pos rfl]

theorem durationOf_trustPad (w : World) :
    durationOf w "trust-pad" = w.trustPadDuration := by
  unfold durationOf
  rw [if_neg (by decide), if_neg (by decide)]

/-- What one loop iteration does.  On success: `from` advances by
`offset`, `to` becomes `min (from + offset) latestBlockNum` for the NEW
`from`, the checkpoint is set to that new `to` and persisted, and the
trace grows by one fetch per contract over the OLD range with exactly the
`logSync` calls the fetches demand.  On abort: `process.exit` with code 0,
every fetch recorded in the new trace is over the old range, and the
`logSync` calls still match the fetches. -/
theorem logIteration_spec (w : World) (latestBlockNum offset : ℤ) (st : LogState) :
    (∃ st1 tr,
       logIteration w latestBlockNum offset st = Except.ok st1 ∧
       st1.fromBlock = st.fromBlock + offset ∧
       st1.toBlock = min (st.fromBlock + offset + offset) latestBlockNum ∧
       st1.conf = { st.conf with syncedBlockHeight := JsonVal.num st1.toBlock } ∧
       st1.file = st1.conf ∧
       st1.trace = st.trace ++ tr ∧
       fetchRanges tr = [(st.fromBlock, st.toBlock), (st.fromBlock, st.toBlock),
                         (st.fromBlock, st.toBlock)] ∧
       logSyncCalls tr = expectedLogSyncs w tr) ∨
    (∃ st1 tr,
       logIteration w latestBlockNum offset st = Except.error (0, st1) ∧
       st1.trace = st.trace ++ tr ∧
       (∀ p ∈ fetchRanges tr, p = (st.fromBlock, st.toBlock)) ∧
       logSyncCalls tr = expectedLogSyncs w tr) := by
  obtain ⟨tr1, h1, hf1, hl1, hp1⟩ :=
    runContract_spec w ⟨"private-sale", w.privateSaleDuration⟩ st (durationOf_privateSale w)
  rcases h1 with h1 | h1
  · obtain ⟨tr2, h2, hf2, hl2, hp2⟩ :=
      runContract_spec w ⟨"chain-guardian", w.chainGuardianDuration⟩
        { st with trace := st.trace ++ tr1 ++ [Ev.sleepEv 1] }
        (durationOf_chainGuardian w)
    simp only at hf2 h2
    rcases h2 with h2 | h2
    · obtain ⟨tr3, h3, hf3, hl3, hp3⟩ :=
        runContract_spec w ⟨"trust-pad", w.trustPadDuration⟩
          { st with trace := st.trace ++ tr1 ++ [Ev.sleepEv 1] ++ tr2 ++ [Ev.sleepEv 1] }
          (durationOf_trustPad w)
      simp only at hf3 h3
      rcases h3 with h3 | h3
      · by_cases hs : w.saveOk = true
        · left
          have hrun : logIteration w latestBlockNum offset st = Except.ok
              { fromBlock := st.fromBlock + offset,
                toBlock := min (st.fromBlock + offset + offset) latestBlockNum,
                conf := { st.conf with syncedBlockHeight := JsonVal.num (min (st.fromBlock + offset + offset) latestBlockNum) },
                file := { st.conf with syncedBlockHeight := JsonVal.num (min (st.fromBlock + offset + offset) latestBlockNum) },
                trace := st.trace ++ tr1 ++ [Ev.sleepEv 1] ++ tr2 ++ [Ev.sleepEv 1] ++ tr3 ++
                  [Ev.persistEv { st.conf with syncedBlockHeight := JsonVal.num (min (st.fromBlock + offset + offset) latestBlockNum) }] } := by
            unfold logIteration
            simp only [h1]
            simp only [h2]
            simp only [h3]
            unfold saveConf
            simp only [hs, reduceIte, ternary_min]
          refine ⟨_, tr1 ++ [Ev.sleepEv 1] ++ tr2 ++ [Ev.sleepEv 1] ++ tr3 ++
            [Ev.persistEv { st.conf with syncedBlockHeight := JsonVal.num (min (st.fromBlock + offset + offset) latestBlockNum) }],
            hrun, rfl, rfl, rfl, rfl, by simp, ?_, ?_⟩
          · simp only [fetchRanges_append, hf1, hf2, hf3]
            simp [fetchRanges]
          · simp only [logSyncCalls_append, expectedLogSyncs_append, hl1, hl2, hl3]
            simp [logSyncCalls, expectedLogSyncs]
        · right
          have hrun : logIteration w latestBlockNum offset st = Except.error (0,
              { fromBlock := st.fromBlock + offset,
                toBlock := min (st.fromBlock + offset + offset) latestBlockNum,
                conf := { st.conf with syncedBlockHeight := JsonVal.num (min (st.fromBlock + offset + offset) latestBlockNum) },
                file := st.file,
                trace := st.trace ++ tr1 ++ [Ev.sleepEv 1] ++ tr2 ++ [Ev.sleepEv 1] ++ tr3 }) := by
            unfold logIteration
            simp only [h1]
            simp only [h2]
            simp only [h3]
            unfold saveConf
            simp only [hs, reduceIte, ternary_min]
            simp [ternary_min]
          refine ⟨_, tr1 ++ [Ev.sleepEv 1] ++ tr2 ++ [Ev.sleepEv 1] ++ tr3,
            hrun, by simp, ?_, ?_⟩
          · intro p hp
            simp only [fetchRanges_append, hf1, hf2, hf3] at hp
            simp [fetchRanges] at hp
            simpa using hp
          · simp only [logSyncCalls_append, expectedLogSyncs_append, hl1, hl2, hl3]
            simp [logSyncCalls, expectedLogSyncs]
      · right
        have hrun : logIteration w latestBlockNum offset st = Except.error (0,
            { st with trace := st.trace ++ tr1 ++ [Ev.sleepEv 1] ++ tr2 ++ [Ev.sleepEv 1] ++ tr3 }) := by
          unfold logIteration
          simp only [h1]
          simp only [h2]
          simp only [h3]
        refine ⟨_, tr1 ++ [Ev.sleepEv 1] ++ tr2 ++ [Ev.sleepEv 1] ++ tr3,
          hrun, by simp, ?_, ?_⟩
        · intro p hp
          simp only [fetchRanges_append, hf1, hf2, hf3] at hp
          simp [fetchRanges] at hp
          simpa using hp
        · simp only [logSyncCalls_append, expectedLogSyncs_append, hl1, hl2, hl3]
          simp [logSyncCalls, expectedLogSyncs]
    · right
      have hrun : logIteration w latestBlockNum offset st = Except.error (0,
          { st with trace := st.trace ++ tr1 ++ [Ev.sleepEv 1] ++ tr2 }) := by
        unfold logIteration
        simp only [h1]
        simp only [h2]
      refine ⟨_, tr1 ++ [Ev.sleepEv 1] ++ tr2, hrun, by simp, ?_, ?_⟩
      · intro p hp
        simp only [fetchRanges_append, hf1, hf2] at hp
        simp [fetchRanges] at hp
        simpa using hp
      · simp only [logSyncCalls_append, expectedLogSyncs_append, hl1, hl2]
        simp [logSyncCalls, expectedLogSyncs]
  · right
    have hrun : logIteration w latestBlockNum offset st = Except.error (0,
        { st with trace := st.trace ++ tr1 }) := by
      unfold logIteration
      simp only [h1]
    refine ⟨_, tr1, hrun, rfl, ?_, hl1⟩
    intro p hp
    rw [hf1] at hp
    simpa using hp

theorem tripled_cons (p : ℤ × ℤ) (ps : List (ℤ × ℤ)) :
    tripled (p :: ps) = p :: p :: p :: tripled ps := rfl

theorem subRange_zero (f offset L : ℤ) :
    subRange f offset L 0 = (f, min (f + offset) L) := by
  simp [subRange]

/-- Shifting the base of the sub-range sequence by one `offset` is the
same as shifting the index. -/
theorem range_succ_map_subRange (f offset L : ℤ) (n : ℕ) :
    (List.range (n + 1)).map (subRange f offset L) =
      subRange f offset L 0 ::
        (List.range n).map (subRange (f + offset) offset L) := by
  rw [List.range_succ_eq_map]
  simp only [List.map_cons, List.map_map]
  congr 1
  apply List.map_congr_left
  intro i _
  simp only [Function.comp_apply, subRange, Prod.mk.injEq]
  push_cast
  constructor
  · ring
  · congr 1
    ring

/-- Any exit of the `log` loop carries exit code 0. -/
theorem logLoop_exit_code (w : World) (latestBlockNum offset : ℤ) :
    ∀ (n : ℕ) (st : LogState) (code : ℕ) (st1 : LogState),
      logLoop w latestBlockNum offset n st = Except.error (code, st1) → code = 0 := by
  intro n
  induction n with
  | zero =>
    intro st code st1 h
    simp [logLoop] at h
  | succ n ih =>
    intro st code st1 h
    unfold logLoop at h
    rcases logIteration_spec w latestBlockNum offset st with
      ⟨st2, tr2, hit, _⟩ | ⟨st2, tr2, hit, _⟩
    · simp only [hit] at h
      exact ih st2 code st1 h
    · simp only [hit] at h
      injection h with h2
      injection h2 with hc hst
      omega

/-- Closed form of a successful `log` loop run: `from` advances by
`n * offset`, the `to` invariant is maintained, the checkpoint and the
file hold the final `to` (when at least one iteration ran), and the fetch
trace is the sub-range sequence, three fetches per sub-range. -/
theorem logLoop_ok_spec (w : World) (latestBlockNum offset : ℤ) :
    ∀ (n : ℕ) (st st1 : LogState),
      st.toBlock = min (st.fromBlock + offset) latestBlockNum →
      logLoop w latestBlockNum offset n st = Except.ok st1 →
      st1.fromBlock = st.fromBlock + (n : ℤ) * offset ∧
      st1.toBlock = min (st1.fromBlock + offset) latestBlockNum ∧
      (0 < n → st1.conf = { st.conf with syncedBlockHeight := JsonVal.num st1.toBlock } ∧
        st1.file = st1.conf) ∧
      (n = 0 → st1 = st) ∧
      ∃ tr, st1.trace = st.trace ++ tr ∧
        fetchRanges tr =
          tripled ((List.range n).map (subRange st.fromBlock offset latestBlockNum)) := by
  intro n
  induction n with
  | zero =>
    intro st st1 hto h
    simp [logLoop] at h
    subst h
    exact ⟨by simp, by simpa using hto, fun hlt => absurd hlt (lt_irrefl 0),
      fun _ => rfl, [], by simp, by simp [fetchRanges, tripled]⟩
  | succ n ih =>
    intro st st1 hto h
    unfold logLoop at h
    rcases logIteration_spec w latestBlockNum offset st with
      ⟨st2, tr2, hit, hfrom, htoB, hconf, hfile, htr, hfr, _⟩ | ⟨st2, tr2, hit, _⟩
    · simp only [hit] at h
      have hto2 : st2.toBlock = min (st2.fromBlock + offset) latestBlockNum := by
        rw [htoB, hfrom]
      obtain ⟨h1, h2, h3, h4, tr3, htr3, hfr3⟩ := ih st2 st1 hto2 h
      refine ⟨?_, h2, ?_, ?_, tr2 ++ tr3, ?_, ?_⟩
      · rw [h1, hfrom]
        push_cast
        ring
      · intro _
        rcases Nat.eq_zero_or_pos n with hn | hn
        · subst hn
          have he : st1 = st2 := h4 rfl
          subst he
          exact ⟨hconf, hfile⟩
        · obtain ⟨hc, hf⟩ := h3 hn
          refine ⟨?_, hf⟩
          rw [hc, hconf]
      · intro hn
        exact absurd hn (Nat.succ_ne_zero n)
      · rw [htr3, htr, List.append_assoc]
      · rw [fetchRanges_append, hfr, hfr3, hfrom, range_succ_map_subRange, tripled_cons,
          subRange_zero, ← hto]
        rfl
    · simp only [hit] at h
      cases h

/-- Every fetch the `log` loop performs — including in runs that abort —
uses a range `from ≤ to`, provided the entry invariants hold. -/
theorem logLoop_fetch_le (w : World) (latestBlockNum offset : ℤ) (hoff : 0 < offset) :
    ∀ (n : ℕ) (st : LogState),
      st.toBlock = min (st.fromBlock + offset) latestBlockNum →
      (0 < n → st.fromBlock + ((n : ℤ) - 1) * offset < latestBlockNum) →
      ∀ p ∈ fetchRanges (resultState (logLoop w latestBlockNum offset n st)).trace,
        p ∈ fetchRanges st.trace ∨ p.1 ≤ p.2 := by
  intro n
  induction n with
  | zero =>
    intro st hto hbound p hp
    left
    simpa [logLoop, resultState] using hp
  | succ n ih =>
    intro st hto hbound p hp
    have hb0 : st.fromBlock + ((n : ℤ) + 1 - 1) * offset < latestBlockNum := by
      have := hbound (Nat.succ_pos n)
      push_cast at this
      linarith
    have hfle : st.fromBlock ≤ st.toBlock := by
      rw [hto]
      apply le_min
      · linarith
      · have hn0 : (0 : ℤ) ≤ (n : ℤ) * offset := by positivity
        nlinarith
    unfold logLoop at hp
    rcases logIteration_spec w latestBlockNum offset st with
      ⟨st2, tr2, hit, hfrom, htoB, _, _, htr, hfr, _⟩ | ⟨st2, tr2, hit, htr, hall, _⟩
    · simp only [hit] at hp
      have hto2 : st2.toBlock = min (st2.fromBlock + offset) latestBlockNum := by
        rw [htoB, hfrom]
      have hb2 : 0 < n → st2.fromBlock + ((n : ℤ) - 1) * offset < latestBlockNum := by
        intro hn
        rw [hfrom]
        nlinarith
      rcases ih st2 hto2 hb2 p hp with hmem | hle
      · rw [htr, fetchRanges_append, hfr] at hmem
        rcases List.mem_append.mp hmem with hm | hm
        · left
          exact hm
        · right
          have hp3 : p = (st.fromBlock, st.toBlock) := by simpa using hm
          rw [hp3]
          exact hfle
      · right
        exact hle
    · simp only [hit, resultState] at hp
      rw [htr, fetchRanges_append] at hp
      rcases List.mem_append.mp hp with hm | hm
      · left
        exact hm
      · right
        have hp3 := hall p hm
        rw [hp3]
        exact hfle

/-- Through the whole `log` loop — aborted or not — the `logSync` calls in
the trace remain exactly those the recorded fetches demand. -/
theorem logLoop_logSync (w : World) (latestBlockNum offset : ℤ) :
    ∀ (n : ℕ) (st : LogState),
      logSyncCalls st.trace = expectedLogSyncs w st.trace →
      logSyncCalls (resultState (logLoop w latestBlockNum offset n st)).trace =
        expectedLogSyncs w (resultState (logLoop w latestBlockNum offset n st)).trace := by
  intro n
  induction n with
  | zero =>
    intro st h
    simpa [logLoop, resultState] using h
  | succ n ih =>
    intro st h
    unfold logLoop
    rcases logIteration_spec w latestBlockNum offset st with
      ⟨st2, tr2, hit, _, _, _, _, htr, _, hls⟩ | ⟨st2, tr2, hit, htr, _, hls⟩
    · simp only [hit]
      apply ih
      rw [htr, logSyncCalls_append, expectedLogSyncs_append, h, hls]
    · simp only [hit, resultState]
      rw [htr, logSyncCalls_append, expectedLogSyncs_append, h, hls]

/-- Every natural `i` strictly below the rational `iterationCount` — i.e.
every value the JS loop counter takes — is strictly below
`loopIterations`, and conversely: the fuel of `logLoop` is exactly the JS
iteration count. -/
theorem lt_iterationCount_iff (latestBlockNum syncedBlockHeight offset : ℤ) (i : ℕ) :
    (i : ℚ) < iterationCount latestBlockNum syncedBlockHeight offset ↔
      i < loopIterations latestBlockNum syncedBlockHeight offset := by
  rw [loopIterations_eq_ceil, Int.lt_toNat, Int.lt_ceil]
  norm_cast

/-- Under the preconditions of the claims (`S ≤ L`, positive offset), the
loop count is literally `⌈(L - S) / offset⌉`. -/
theorem loopIterations_cast (latestBlockNum syncedBlockHeight offset : ℤ)
    (hS : syncedBlockHeight ≤ latestBlockNum) (hoff : 0 < offset) :
    (loopIterations latestBlockNum syncedBlockHeight offset : ℤ) =
      Int.ceil (((latestBlockNum : ℚ) - (syncedBlockHeight : ℚ)) / (offset : ℚ)) := by
  have hq : (0 : ℚ) ≤ ((latestBlockNum : ℚ) - (syncedBlockHeight : ℚ)) / (offset : ℚ) := by
    apply div_nonneg
    · have : (syncedBlockHeight : ℚ) ≤ (latestBlockNum : ℚ) := by exact_mod_cast hS
      linarith
    · have : (0 : ℚ) < (offset : ℚ) := by exact_mod_cast hoff
      linarith
  rw [loopIterations_eq_ceil]
  unfold iterationCount
  rw [max_eq_right hq]
  exact Int.toNat_of_nonneg (Int.ceil_nonneg hq)

/-- Every iteration index the loop reaches starts strictly below the chain
head: `S + i * offset < L` for `i < loopIterations`. -/
theorem subRange_lt_latest (latestBlockNum syncedBlockHeight offset : ℤ)
    (hoff : 0 < offset) (i : ℕ)
    (hi : i < loopIterations latestBlockNum syncedBlockHeight offset) :
    syncedBlockHeight + (i : ℤ) * offset < latestBlockNum := by
  have h := (lt_iterationCount_iff latestBlockNum syncedBlockHeight offset i).mpr hi
  unfold iterationCount at h
  have hoffQ : (0 : ℚ) < (offset : ℚ) := by exact_mod_cast hoff
  rcases le_total (((latestBlockNum : ℚ) - (syncedBlockHeight : ℚ)) / (offset : ℚ)) 0 with hq | hq
  · rw [max_eq_left hq] at h
    exact absurd h (not_lt.mpr (by positivity))
  · rw [max_eq_right hq] at h
    have h2 : (i : ℚ) * (offset : ℚ) < (latestBlockNum : ℚ) - (syncedBlockHeight : ℚ) :=
      (lt_div_iff₀ hoffQ).mp h
    have h3 : (syncedBlockHeight : ℚ) + (i : ℚ) * (offset : ℚ) < (latestBlockNum : ℚ) := by
      linarith
    exact_mod_cast h3

/-- The loop count covers the whole gap: `L - S ≤ loopIterations * offset`. -/
theorem loopIterations_mul_ge (latestBlockNum syncedBlockHeight offset : ℤ)
    (hS : syncedBlockHeight ≤ latestBlockNum) (hoff : 0 < offset) :
    latestBlockNum - syncedBlockHeight ≤
      (loopIterations latestBlockNum syncedBlockHeight offset : ℤ) * offset := by
  have hoffQ : (0 : ℚ) < (offset : ℚ) := by exact_mod_cast hoff
  have h := Int.le_ceil (((latestBlockNum : ℚ) - (syncedBlockHeight : ℚ)) / (offset : ℚ))
  rw [← loopIterations_cast latestBlockNum syncedBlockHeight offset hS hoff] at h
  have h2 : (latestBlockNum : ℚ) - (syncedBlockHeight : ℚ) ≤
      ((loopIterations latestBlockNum syncedBlockHeight offset : ℤ) : ℚ) * (offset : ℚ) :=
    (div_le_iff₀ hoffQ).mp h
  exact_mod_cast h2

/-- With a positive offset and `S ≤ L`, the loop runs zero times exactly
when the checkpoint is already at the chain head. -/
theorem loopIterations_eq_zero_iff (latestBlockNum syncedBlockHeight offset : ℤ)
    (hS : syncedBlockHeight ≤ latestBlockNum) (hoff : 0 < offset) :
    loopIterations latestBlockNum syncedBlockHeight offset = 0 ↔
      syncedBlockHeight = latestBlockNum := by
  constructor
  · intro h
    have h2 := loopIterations_mul_ge latestBlockNum syncedBlockHeight offset hS hoff
    rw [h] at h2
    push_cast at h2
    omega
  · intro h
    subst h
    have h2 : (loopIterations syncedBlockHeight syncedBlockHeight offset : ℤ) = 0 := by
      rw [loopIterations_cast syncedBlockHeight syncedBlockHeight offset le_rfl hoff]
      norm_num
    exact_mod_cast h2

/-- A cycle whose chain-height query throws: reconnect, sleep, retry with
conf and file untouched. -/
theorem syncCycle_oracle_fail (w : World) (conf file : Conf) (s : ℤ)
    (hconf : conf.syncedBlockHeight = JsonVal.num s)
    (hw : w.getBlockNumber = none) :
    syncCycle w conf file =
      (CycleOutcome.nextCycle conf file,
       [Ev.oracleQueryEv, Ev.reInitEv, Ev.sleepEv conf.sleepInterval]) := by
  simp [syncCycle, blockHeights, jsIsNaN, jsToNumber, hconf, hw]

/-- Running the scheduler loop for one cycle is that cycle. -/
theorem syncCycles_one (ws : ℕ → World) (conf file : Conf) :
    syncCycles ws 1 conf file = syncCycle (ws 0) conf file := by
  unfold syncCycles
  rcases hc : syncCycle (ws 0) conf file with ⟨out, tr⟩
  cases out <;> simp [syncCycles]

/-- C7: in a scheduler cycle in which the oracle height equals the
checkpoint height, no event fetch occurs, the checkpoint is not written,
and the loop sleeps for exactly `sleepInterval` before the next cycle. -/
theorem C7_caught_up_cycle (w : World) (conf file : Conf) (s : ℤ)
    (hconf : conf.syncedBlockHeight = JsonVal.num s)
    (hw : w.getBlockNumber = some s) :
    syncCycle w conf file =
      (CycleOutcome.nextCycle conf file,
       [Ev.oracleQueryEv, Ev.sleepEv conf.sleepInterval]) ∧
    (∀ name a b, Ev.fetchEv name a b ∉ (syncCycle w conf file).2) ∧
    (∀ cf, Ev.persistEv cf ∉ (syncCycle w conf file).2) := by
  have hcyc : syncCycle w conf file =
      (CycleOutcome.nextCycle conf file,
       [Ev.oracleQueryEv, Ev.sleepEv conf.sleepInterval]) := by
    simp [syncCycle, blockHeights, jsIsNaN, jsToNumber, hconf, hw]
  refine ⟨hcyc, ?_, ?_⟩
  · intro name a b
    rw [hcyc]
    simp
  · intro cf
    rw [hcyc]
    simp

/-- C7 witness: oracle = checkpoint = 100 with `confA`. -/
theorem C7_caught_up_cycle_witness :
    syncCycle oracle100World confA confA =
      (CycleOutcome.nextCycle confA confA, [Ev.oracleQueryEv, Ev.sleepEv 7]) :=
  (C7_caught_up_cycle oracle100World confA confA 100 rfl rfl).1

/-- C5: in a scheduler cycle in which the oracle height is strictly below
the checkpoint height (and the save succeeds), the checkpoint is clamped
to the oracle height and persisted, and no event fetch occurs in the
cycle; the cycle then sleeps and continues. -/
theorem C5_clamp_cycle (w : World) (conf file : Conf) (s latestBlockNum : ℤ)
    (hconf : conf.syncedBlockHeight = JsonVal.num s)
    (hw : w.getBlockNumber = some latestBlockNum)
    (hlt : latestBlockNum < s) (hsave : w.saveOk = true) :
    syncCycle w conf file =
      (CycleOutcome.nextCycle { conf with syncedBlockHeight := JsonVal.num latestBlockNum }
         { conf with syncedBlockHeight := JsonVal.num latestBlockNum },
       [Ev.oracleQueryEv,
        Ev.persistEv { conf with syncedBlockHeight := JsonVal.num latestBlockNum },
        Ev.sleepEv conf.sleepInterval]) ∧
    (∀ name a b, Ev.fetchEv name a b ∉ (syncCycle w conf file).2) := by
  have hcyc : syncCycle w conf file =
      (CycleOutcome.nextCycle { conf with syncedBlockHeight := JsonVal.num latestBlockNum }
         { conf with syncedBlockHeight := JsonVal.num latestBlockNum },
       [Ev.oracleQueryEv,
        Ev.persistEv { conf with syncedBlockHeight := JsonVal.num latestBlockNum },
        Ev.sleepEv conf.sleepInterval]) := by
    simp [syncCycle, blockHeights, jsIsNaN, jsToNumber, hconf, hw, saveConf, hsave, hlt]
  refine ⟨hcyc, ?_⟩
  intro name a b
  rw [hcyc]
  simp

/-- C5 witness: oracle 50 below checkpoint 100. -/
theorem C5_clamp_cycle_witness :
    syncCycle oracle50World confA confA =
      (CycleOutcome.nextCycle { confA with syncedBlockHeight := JsonVal.num 50 }
         { confA with syncedBlockHeight := JsonVal.num 50 },
       [Ev.oracleQueryEv, Ev.persistEv { confA with syncedBlockHeight := JsonVal.num 50 },
        Ev.sleepEv 7]) :=
  (C5_clamp_cycle oracle50World confA confA 100 50 rfl rfl (by norm_num) rfl).1

/-- C6: an oracle-failure cycle leaves the checkpoint unchanged and
unpersisted, fetches nothing, reinitializes the client and sleeps
`sleepInterval`; and after any number `n` of consecutive oracle-failure
cycles the loop is still running with the original conf and file, so the
next cycle — with whatever world the oracle recovers to — starts from the
unchanged prior checkpoint. -/
theorem C6_oracle_outage_retry (ws : ℕ → World) (n : ℕ) (conf file : Conf) (s : ℤ)
    (hconf : conf.syncedBlockHeight = JsonVal.num s)
    (hfail : ∀ i, i < n → (ws i).getBlockNumber = none) :
    (∀ (w : World) (file1 : Conf), w.getBlockNumber = none →
       syncCycle w conf file1 =
         (CycleOutcome.nextCycle conf file1,
          [Ev.oracleQueryEv, Ev.reInitEv, Ev.sleepEv conf.sleepInterval])) ∧
    syncCycles ws (n + 1) conf file =
      ((syncCycle (ws n) conf file).1,
       repeatTrace n [Ev.oracleQueryEv, Ev.reInitEv, Ev.sleepEv conf.sleepInterval] ++
         (syncCycle (ws n) conf file).2) := by
  constructor
  · intro w file1 hw
    exact syncCycle_oracle_fail w conf file1 s hconf hw
  · induction n generalizing ws with
    | zero =>
      rw [syncCycles_one]
      simp [repeatTrace]
    | succ n ih =>
      have h0 := syncCycle_oracle_fail (ws 0) conf file s hconf (hfail 0 (Nat.succ_pos n))
      have hfail2 : ∀ i, i < n → ((fun i => ws (i + 1)) i).getBlockNumber = none := by
        intro i hi
        exact hfail (i + 1) (by omega)
      have ih2 := ih (fun i => ws (i + 1)) hfail2
      show syncCycles ws (n + 1 + 1) conf file = _
      unfold syncCycles
      simp only [h0]
      rw [ih2]
      simp [repeatTrace, List.append_assoc]

/-- C6 witness: Scenario B — the oracle throws on cycle 0 and recovers to
300 on cycle 1; after the failing cycle the loop continues from the
unchanged `confA`. -/
theorem C6_oracle_outage_retry_witness :
    syncCycle oracleFailWorld confA confA =
      (CycleOutcome.nextCycle confA confA,
       [Ev.oracleQueryEv, Ev.reInitEv, Ev.sleepEv 7]) ∧
    syncCycles outageWorlds 2 confA confA =
      ((syncCycle (outageWorlds 1) confA confA).1,
       repeatTrace 1 [Ev.oracleQueryEv, Ev.reInitEv, Ev.sleepEv 7] ++
         (syncCycle (outageWorlds 1) confA confA).2) := by
  have h := C6_oracle_outage_retry outageWorlds 1 confA confA 100 rfl (by decide)
  exact ⟨h.1 oracleFailWorld confA rfl, h.2⟩

/-- C4 counterexample: a cycle with oracle height 250 above checkpoint 100
in which the engine completes successfully still ends with a
`sleepInterval` (7 second) sleep — the loop does NOT proceed to the next
cycle immediately. -/
theorem C4_counterexample_sleeps_after_success :
    (syncCycle allOkWorld confA confA).1 =
      CycleOutcome.nextCycle { confA with syncedBlockHeight := JsonVal.num 250 }
        { confA with syncedBlockHeight := JsonVal.num 250 } ∧
    Ev.fetchEv "private-sale" 100 200 ∈ (syncCycle allOkWorld confA confA).2 ∧
    (syncCycle allOkWorld confA confA).2.getLast? = some (Ev.sleepEv 7) := by
  decide

/-- C4 as amended: when the oracle height exceeds the checkpoint and the
Range Sync Engine completes successfully, the cycle appends a
`sleepInterval` sleep after the engine's trace and only then continues. -/
theorem C4_success_cycle_sleeps (w : World) (conf file : Conf) (s latestBlockNum : ℤ)
    (st : LogState)
    (hconf : conf.syncedBlockHeight = JsonVal.num s)
    (hw : w.getBlockNumber = some latestBlockNum)
    (hlt : s < latestBlockNum)
    (hrun : log w conf file latestBlockNum s = Except.ok st) :
    syncCycle w conf file =
      (CycleOutcome.nextCycle st.conf st.file,
       [Ev.oracleQueryEv] ++ st.trace ++ [Ev.sleepEv st.conf.sleepInterval]) := by
  have hngt : ¬ s > latestBlockNum := by omega
  simp [syncCycle, blockHeights, jsIsNaN, jsToNumber, hconf, hw, hngt, hlt, hrun]

/-- C4 witness: the amended behaviour at the concrete successful cycle. -/
theorem C4_success_cycle_sleeps_witness :
    syncCycle allOkWorld confA confA =
      (CycleOutcome.nextCycle (resultState (log allOkWorld confA confA 250 100)).conf
         (resultState (log allOkWorld confA confA 250 100)).file,
       [Ev.oracleQueryEv] ++ (resultState (log allOkWorld confA confA 250 100)).trace ++
         [Ev.sleepEv (resultState (log allOkWorld confA confA 250 100)).conf.sleepInterval]) :=
  C4_success_cycle_sleeps allOkWorld confA confA 100 250
    (resultState (log allOkWorld confA confA 250 100)) rfl rfl (by norm_num) (by decide)

/-- C10 counterexample: a `null` checkpoint field is not a number, yet
`blockHeights` does not raise (JS `isNaN(null)` is false) — the claimed
"if and only if the field is not a number" fails. -/
theorem C10_counterexample_null_not_number :
    JsonVal.isNumber JsonVal.null = false ∧
    blockHeights allOkWorld confNull =
      Except.ok ((some 250, JsonVal.null), [Ev.oracleQueryEv]) := by
  decide

/-- C10 as amended: `blockHeights` raises 'syncedBlockHeight must be
integer' exactly when the field is `NaN` under JS numeric coercion
(`isNaN`); when it fires the whole cycle produces an empty trace — no
chain query, no fetch, no checkpoint write — and this guard is part of
every cycle; an oracle failure, by contrast, is returned as an undefined
height, not raised. -/
theorem C10_nan_guard (w : World) (conf file : Conf) :
    (blockHeights w conf = Except.error "syncedBlockHeight must be integer" ↔
      jsIsNaN conf.syncedBlockHeight = true) ∧
    (jsIsNaN conf.syncedBlockHeight = true →
      syncCycle w conf file = (CycleOutcome.threw "syncedBlockHeight must be integer", [])) ∧
    (jsIsNaN conf.syncedBlockHeight = false → w.getBlockNumber = none →
      blockHeights w conf = Except.ok ((none, conf.syncedBlockHeight), [Ev.oracleQueryEv])) := by
  refine ⟨⟨?_, ?_⟩, ?_, ?_⟩
  · intro h
    by_contra hn
    rcases hg : w.getBlockNumber with _ | latestBlockNum <;>
      simp [blockHeights, hn, hg] at h
  · intro h
    simp [blockHeights, h]
  · intro h
    simp [syncCycle, blockHeights, h]
  · intro h hw
    simp [blockHeights, h, hw]

/-- C10 witness: a missing (`undefined`) field raises and aborts the cycle
with an empty trace; an oracle failure with a numeric field returns an
undefined height instead. -/
theorem C10_nan_guard_witness :
    blockHeights allOkWorld confUndef = Except.error "syncedBlockHeight must be integer" ∧
    syncCycle allOkWorld confUndef confUndef =
      (CycleOutcome.threw "syncedBlockHeight must be integer", []) ∧
    blockHeights oracleFailWorld confA =
      Except.ok ((none, JsonVal.num 100), [Ev.oracleQueryEv]) := by
  have h1 := C10_nan_guard allOkWorld confUndef confUndef
  have h2 := C10_nan_guard oracleFailWorld confA confA
  exact ⟨h1.1.mpr (by decide), h1.2.1 (by decide), h2.2.2 (by decide) rfl⟩

/-- The initial `to` of `log` is the clamped end of the first sub-range. -/
theorem log_initial_to (latestBlockNum syncedBlockHeight offset : ℤ) :
    (if latestBlockNum - syncedBlockHeight > offset then offset + syncedBlockHeight
     else latestBlockNum) = min (syncedBlockHeight + offset) latestBlockNum := by
  split <;> omega

/-- C1: evaluation of the code at the Scenario C failing input
(`syncedBlockHeight = 100`, `latestBlockNum = 250`, `offset = 100`;
chain-guardian's fetch over sub-range (200,250) fails after private-sale
succeeded there).  The run exits (code 0) inside sub-range (200,250), but
the checkpoint persisted at the end of the FIRST sub-range (100,200) was
already 250 — the next sub-range's end, not 200 — so at the abort the
file still holds 250.  The claim (and the spec's safety rationale)
requires it to be 200. -/
theorem C1_checkpoint_runs_ahead :
    resultExitCode (log guardianFailWorld confA confA 250 100) = some 0 ∧
    Ev.fetchEv "private-sale" 200 250 ∈
      (resultState (log guardianFailWorld confA confA 250 100)).trace ∧
    persistedConfs (resultState (log guardianFailWorld confA confA 250 100)).trace =
      [{ confA with syncedBlockHeight := JsonVal.num 250 }] ∧
    (resultState (log guardianFailWorld confA confA 250 100)).file.syncedBlockHeight =
      JsonVal.num 250 := by
  decide

/-- C2: for `syncedBlockHeight ≤ latestBlockNum` and positive `offset`, a
successful `log` run fetches each contract over the sub-range sequence
`subRange i = (S + i*offset, min (S + (i+1)*offset) L)` for
`i < loopIterations`; the count is `⌈(L - S)/offset⌉` (zero when caught
up), consecutive sub-ranges are contiguous and strictly increasing, the
first starts at `S` and the last ends at `L`, and for a positive gap the
final persisted checkpoint is `L`. -/
theorem C2_subrange_coverage (w : World) (conf file : Conf)
    (latestBlockNum syncedBlockHeight : ℤ) (st : LogState)
    (hS : syncedBlockHeight ≤ latestBlockNum) (hoff : 0 < conf.offset)
    (hrun : log w conf file latestBlockNum syncedBlockHeight = Except.ok st) :
    (loopIterations latestBlockNum syncedBlockHeight conf.offset : ℤ) =
      Int.ceil (((latestBlockNum : ℚ) - (syncedBlockHeight : ℚ)) / ((conf.offset : ℤ) : ℚ)) ∧
    (syncedBlockHeight = latestBlockNum →
      loopIterations latestBlockNum syncedBlockHeight conf.offset = 0) ∧
    fetchRanges st.trace =
      tripled ((List.range (loopIterations latestBlockNum syncedBlockHeight conf.offset)).map
        (subRange syncedBlockHeight conf.offset latestBlockNum)) ∧
    (∀ i : ℕ, i + 1 < loopIterations latestBlockNum syncedBlockHeight conf.offset →
      (subRange syncedBlockHeight conf.offset latestBlockNum i).2 =
        (subRange syncedBlockHeight conf.offset latestBlockNum (i + 1)).1) ∧
    (∀ i : ℕ, i < loopIterations latestBlockNum syncedBlockHeight conf.offset →
      (subRange syncedBlockHeight conf.offset latestBlockNum i).1 <
        (subRange syncedBlockHeight conf.offset latestBlockNum i).2) ∧
    (0 < loopIterations latestBlockNum syncedBlockHeight conf.offset →
      (subRange syncedBlockHeight conf.offset latestBlockNum 0).1 = syncedBlockHeight ∧
      (subRange syncedBlockHeight conf.offset latestBlockNum
        (loopIterations latestBlockNum syncedBlockHeight conf.offset - 1)).2 =
          latestBlockNum) ∧
    (syncedBlockHeight < latestBlockNum →
      st.conf.syncedBlockHeight = JsonVal.num latestBlockNum ∧ st.file = st.conf) := by
  simp only [log] at hrun
  rw [log_initial_to] at hrun
  obtain ⟨h1, h2, h3, h4, tr, htr, hfr⟩ :=
    logLoop_ok_spec w latestBlockNum conf.offset
      (loopIterations latestBlockNum syncedBlockHeight conf.offset)
      { fromBlock := syncedBlockHeight,
        toBlock := min (syncedBlockHeight + conf.offset) latestBlockNum,
        conf := conf, file := file, trace := [] } st rfl hrun
  have hcover := loopIterations_mul_ge latestBlockNum syncedBlockHeight conf.offset hS hoff
  refine ⟨loopIterations_cast latestBlockNum syncedBlockHeight conf.offset hS hoff,
    fun he => (loopIterations_eq_zero_iff latestBlockNum syncedBlockHeight
      conf.offset hS hoff).mpr he,
    ?_, ?_, ?_, ?_, ?_⟩
  · rw [htr]
    simpa using hfr
  · intro i hi
    have hlt := subRange_lt_latest latestBlockNum syncedBlockHeight conf.offset hoff
      (i + 1) hi
    unfold subRange
    push_cast at hlt ⊢
    rw [min_eq_left (by linarith)]
  · intro i hi
    have hlt := subRange_lt_latest latestBlockNum syncedBlockHeight conf.offset hoff i hi
    dsimp only [subRange]
    apply lt_min
    · nlinarith
    · exact hlt
  · intro hk
    constructor
    · unfold subRange
      push_cast
      ring
    · unfold subRange
      have hcast : ((loopIterations latestBlockNum syncedBlockHeight conf.offset - 1 : ℕ) : ℤ)
          = (loopIterations latestBlockNum syncedBlockHeight conf.offset : ℤ) - 1 := by
        omega
      rw [hcast]
      apply min_eq_right
      nlinarith
  · intro hlt
    have hk : 0 < loopIterations latestBlockNum syncedBlockHeight conf.offset := by
      rcases Nat.eq_zero_or_pos (loopIterations latestBlockNum syncedBlockHeight conf.offset)
        with hz | hp
      · exact absurd ((loopIterations_eq_zero_iff latestBlockNum syncedBlockHeight
          conf.offset hS hoff).mp hz) (by omega)
      · exact hp
    obtain ⟨hc, hf⟩ := h3 hk
    have hfinal : st.toBlock = latestBlockNum := by
      rw [h2, h1]
      apply min_eq_right
      have hk1 : (1 : ℤ) ≤ (loopIterations latestBlockNum syncedBlockHeight conf.offset : ℤ) := by
        exact_mod_cast hk
      nlinarith
    constructor
    · rw [hc, hfinal]
    · rw [hf]

/-- C2 witness: Scenario A — `S = 100`, `L = 250`, `offset = 100` gives
the sub-ranges (100,200), (200,250), each fetched once per contract, and
the final checkpoint 250. -/
theorem C2_subrange_coverage_witness :
    fetchRanges (resultState (log allOkWorld confA confA 250 100)).trace =
      [(100, 200), (100, 200), (100, 200), (200, 250), (200, 250), (200, 250)] ∧
    (resultState (log allOkWorld confA confA 250 100)).conf.syncedBlockHeight =
      JsonVal.num 250 := by
  have h := C2_subrange_coverage allOkWorld confA confA 250 100
    (resultState (log allOkWorld confA confA 250 100)) (by norm_num) (by decide) (by decide)
  refine ⟨?_, (h.2.2.2.2.2.2 (by norm_num)).1⟩
  rw [h.2.2.1]
  decide

/-- C3 counterexample: at each of the three fatal conditions — event fetch
failure, `logSync` failure, checkpoint save failure — the process
terminates with exit code 0, not a non-zero code (`process.exit(0)` and
argument-less `process.exit()` in the source). -/
theorem C3_counterexample_exit_code_zero :
    resultExitCode (log fetchFailWorld confA confA 250 100) = some 0 ∧
    resultExitCode (log logSyncFailWorld confA confA 250 100) = some 0 ∧
    resultExitCode (log saveFailWorld confA confA 250 100) = some 0 := by
  decide

/-- C3 as amended: whenever the engine or a cycle terminates the process —
for any world, so in particular on fetch, `logSync` and save failures —
the exit code is 0. -/
theorem C3_exit_code_always_zero :
    (∀ (w : World) (conf file : Conf) (latestBlockNum syncedBlockHeight : ℤ),
       resultExitCode (log w conf file latestBlockNum syncedBlockHeight) = none ∨
       resultExitCode (log w conf file latestBlockNum syncedBlockHeight) = some 0) ∧
    (∀ (w : World) (conf file : Conf),
       cycleExit (syncCycle w conf file).1 = none ∨
       cycleExit (syncCycle w conf file).1 = some 0) := by
  have hlog : ∀ (w : World) (conf file : Conf) (latestBlockNum syncedBlockHeight : ℤ),
      resultExitCode (log w conf file latestBlockNum syncedBlockHeight) = none ∨
      resultExitCode (log w conf file latestBlockNum syncedBlockHeight) = some 0 := by
    intro w conf file latestBlockNum syncedBlockHeight
    cases hr : log w conf file latestBlockNum syncedBlockHeight with
    | ok st =>
        left
        simp [resultExitCode]
    | error e =>
        right
        obtain ⟨c, st1⟩ := e
        unfold log at hr
        have hc := logLoop_exit_code w latestBlockNum conf.offset _ _ c st1 hr
        simp [resultExitCode, hc]
  refine ⟨hlog, ?_⟩
  intro w conf file
  by_cases hnan : jsIsNaN conf.syncedBlockHeight = true
  · left
    simp [syncCycle, blockHeights, hnan, cycleExit]
  · have hnan2 : jsIsNaN conf.syncedBlockHeight = false := by simpa using hnan
    rcases hg : w.getBlockNumber with _ | latestBlockNum
    · left
      simp [syncCycle, blockHeights, hnan2, hg, cycleExit]
    · by_cases hgt : (jsToNumber conf.syncedBlockHeight).getD 0 > latestBlockNum
      · by_cases hsv : w.saveOk = true
        · left
          simp [syncCycle, blockHeights, hnan2, hg, hgt, hsv, saveConf, cycleExit]
        · right
          simp [syncCycle, blockHeights, hnan2, hg, hgt, hsv, saveConf, cycleExit]
      · by_cases hlt2 : (jsToNumber conf.syncedBlockHeight).getD 0 < latestBlockNum
        · cases hr : log w conf file latestBlockNum
            ((jsToNumber conf.syncedBlockHeight).getD 0) with
          | ok st =>
              left
              simp [syncCycle, blockHeights, hnan2, hg, hgt, hlt2, hr, cycleExit]
          | error e =>
              obtain ⟨c, st1⟩ := e
              have hc : c = 0 := by
                unfold log at hr
                exact logLoop_exit_code w latestBlockNum conf.offset _ _ c st1 hr
              subst hc
              right
              simp [syncCycle, blockHeights, hnan2, hg, hgt, hlt2, hr, cycleExit]
        · left
          simp [syncCycle, blockHeights, hnan2, hg, hgt, hlt2, cycleExit]

/-- C8: in a `log` run with `syncedBlockHeight < latestBlockNum` and a
positive offset, every range passed to `getPastEvents` — in the initial
iteration and in every later one, whether or not the run aborts —
satisfies `from ≤ to`. -/
theorem C8_fetch_ranges_wellformed (w : World) (conf file : Conf)
    (latestBlockNum syncedBlockHeight : ℤ)
    (hS : syncedBlockHeight < latestBlockNum) (hoff : 0 < conf.offset) :
    rangesOk (resultState (log w conf file latestBlockNum syncedBlockHeight)).trace := by
  intro p hp
  simp only [log] at hp
  rw [log_initial_to] at hp
  have hbound : 0 < loopIterations latestBlockNum syncedBlockHeight conf.offset →
      syncedBlockHeight +
        ((loopIterations latestBlockNum syncedBlockHeight conf.offset : ℤ) - 1) * conf.offset <
        latestBlockNum := by
    intro hk
    have h2 := subRange_lt_latest latestBlockNum syncedBlockHeight conf.offset hoff
      (loopIterations latestBlockNum syncedBlockHeight conf.offset - 1) (by omega)
    have e : ((loopIterations latestBlockNum syncedBlockHeight conf.offset - 1 : ℕ) : ℤ)
        = (loopIterations latestBlockNum syncedBlockHeight conf.offset : ℤ) - 1 := by
      omega
    rw [e] at h2
    exact h2
  have h := logLoop_fetch_le w latestBlockNum conf.offset hoff
    (loopIterations latestBlockNum syncedBlockHeight conf.offset)
    { fromBlock := syncedBlockHeight,
      toBlock := min (syncedBlockHeight + conf.offset) latestBlockNum,
      conf := conf, file := file, trace := [] } rfl hbound p hp
  rcases h with hmem | hle
  · simp [fetchRanges] at hmem
  · exact hle

/-- C8 witness: the Scenario A run has only well-formed ranges. -/
theorem C8_fetch_ranges_wellformed_witness :
    rangesOk (resultState (log allOkWorld confA confA 250 100)).trace :=
  C8_fetch_ranges_wellformed allOkWorld confA confA 250 100 (by norm_num) (by decide)

/-- C9: in every `log` run — any world, any heights, aborted or not — the
sequence of `logSync` invocations recorded is exactly the sequence the
recorded fetches demand: one invocation per fetch whose event batch is
non-empty, carrying that contract's name, the fetched batch and the
contract's duration parameter, and none for an empty batch. -/
theorem C9_logSync_iff_nonempty (w : World) (conf file : Conf)
    (latestBlockNum syncedBlockHeight : ℤ) :
    logSyncCalls (resultState (log w conf file latestBlockNum syncedBlockHeight)).trace =
      expectedLogSyncs w
        (resultState (log w conf file latestBlockNum syncedBlockHeight)).trace := by
  unfold log
  apply logLoop_logSync
  simp [logSyncCalls, expectedLogSyncs]

end PolkaSync
